import Mathlib

/-!
# Verification of the RoboDK post-processor core

Shallow embedding of the instruction-receiving contract and code-generation
core of the `robodk_postprocessors` repository:

* `BasePost.py` — the generic dialect backend (`RobotPost`), with the
  pose/joint text codec (`joints_2_str`), the line buffer (`PROG`), the
  diagnostic log (`LOG`) and the save lifecycle (`ProgSave`);
* `robodk_postprocessors/Precise.py` — the Precise (GPL) dialect backend;
* `robodk_postprocessors/PythonWriter.py` — the call-recording replay
  backend (`FloatRepr`, `function_details`, `ProgSave`).

Python machine floats are embedded as rationals (`ℚ`): decimal formatting is
exact on decimally-representable values, and rounding ties (which depend on
the binary significand in the source) are modelled as round-half-up; all
concrete inputs used in theorems stay away from ties.  Python strings are
embedded as Lean `String`s over plain printable characters (no quotes,
backslashes or control characters), which covers every string the backends
render.  A further limit of the `ℚ` model: it has no signed zero, so a
negative value that rounds to zero renders without the `-` the binary float
would keep; no concrete value used below hits that case.
-/

/-! ## Decimal digits: rendering and parsing characters -/

/-- The decimal digit character for `d` (defined for `d < 10`; larger values
clamp to `'9'`, a case never reached by the formatters below). -/
def dChar (d : Nat) : Char :=
  match d with
  | 0 => '0' | 1 => '1' | 2 => '2' | 3 => '3' | 4 => '4'
  | 5 => '5' | 6 => '6' | 7 => '7' | 8 => '8' | _ => '9'

/-- Numeric value of a decimal digit character. -/
def dVal (c : Char) : Nat := c.toNat - 48

/-- Decimal digit test (`'0'` … `'9'`). -/
def isDigitCh (c : Char) : Bool := '0' ≤ c && c ≤ '9'

theorem dVal_dChar {d : Nat} (h : d < 10) : dVal (dChar d) = d := by
  interval_cases d <;> rfl

theorem isDigitCh_dChar {d : Nat} (h : d < 10) : isDigitCh (dChar d) = true := by
  interval_cases d <;> rfl

theorem dChar_ne_dot {d : Nat} (h : d < 10) : dChar d ≠ '.' := by
  interval_cases d <;> decide

theorem dChar_ne_minus {d : Nat} (h : d < 10) : dChar d ≠ '-' := by
  interval_cases d <;> decide

theorem dChar_ne_e {d : Nat} (h : d < 10) : dChar d ≠ 'e' ∧ dChar d ≠ 'E' := by
  interval_cases d <;> exact ⟨by decide, by decide⟩

/-- Little-endian decimal digits of `n`, with explicit structural fuel. -/
def digitsRevAux : Nat → Nat → List Nat
  | 0, _ => []
  | fuel + 1, n => if n = 0 then [] else n % 10 :: digitsRevAux fuel (n / 10)

/-- Little-endian decimal digits of `n` (empty for `n = 0`). -/
def digitsRev (n : Nat) : List Nat := digitsRevAux n n

/-- Big-endian decimal digit characters of `n`, with `"0"` for zero: the
embedding of Python `str` on a non-negative integer. -/
def natStr (n : Nat) : List Char :=
  if n = 0 then ['0'] else ((digitsRev n).reverse.map dChar)

/-- Value of a little-endian digit list. -/
def lePoly : List Nat → Nat
  | [] => 0
  | d :: ds => d + 10 * lePoly ds

/-- Fold-based reading of a big-endian digit-character list: the embedding of
the host runtime's integer-literal parsing. -/
def parseNatChars (cs : List Char) : Nat :=
  cs.foldl (fun a c => 10 * a + dVal c) 0

theorem lePoly_digitsRevAux : ∀ (fuel n : Nat), n ≤ fuel →
    lePoly (digitsRevAux fuel n) = n := by
  intro fuel
  induction fuel with
  | zero => intro n h; interval_cases n; rfl
  | succ f ih =>
      intro n h
      by_cases hn : n = 0
      · subst hn; simp [digitsRevAux, lePoly]
      · have hdiv : n / 10 ≤ f := by
          have h1 : n / 10 < n := Nat.div_lt_self (Nat.pos_of_ne_zero hn) (by omega)
          omega
        simp only [digitsRevAux, hn, if_false, lePoly, ih (n / 10) hdiv]
        omega

theorem digitsRevAux_lt_ten : ∀ (fuel n : Nat), ∀ d ∈ digitsRevAux fuel n, d < 10 := by
  intro fuel
  induction fuel with
  | zero => intro n d hd; simp [digitsRevAux] at hd
  | succ f ih =>
      intro n d hd
      by_cases hn : n = 0
      · subst hn; simp [digitsRevAux] at hd
      · simp only [digitsRevAux, hn, if_false, List.mem_cons] at hd
        rcases hd with h | h
        · subst h; exact Nat.mod_lt _ (by omega)
        · exact ih _ _ h

theorem digitsRev_lt_ten (n : Nat) : ∀ d ∈ digitsRev n, d < 10 :=
  digitsRevAux_lt_ten n n

/-- Folding the parse step over a reversed rendered digit list recovers the
little-endian value. -/
theorem parseNatChars_rev_map : ∀ (L : List Nat), (∀ d ∈ L, d < 10) →
    parseNatChars ((L.map dChar).reverse) = lePoly L := by
  intro L
  induction L with
  | nil => intro _; rfl
  | cons d ds ih =>
      intro h
      have hd : d < 10 := h d (List.mem_cons_self ..)
      have hds : ∀ x ∈ ds, x < 10 := fun x hx => h x (List.mem_cons_of_mem _ hx)
      simp only [List.map_cons, List.reverse_cons, parseNatChars, List.foldl_append,
        List.foldl_cons, List.foldl_nil]
      have := ih hds
      simp only [parseNatChars] at this
      rw [this, lePoly, dVal_dChar hd]
      ring

theorem parseNatChars_natStr (n : Nat) : parseNatChars (natStr n) = n := by
  by_cases hn : n = 0
  · subst hn; rfl
  · simp only [natStr, hn, if_false]
    rw [List.map_reverse, parseNatChars_rev_map _ (digitsRev_lt_ten n)]
    exact lePoly_digitsRevAux n n le_rfl

theorem digitsRev_ne_nil {n : Nat} (hn : n ≠ 0) : digitsRev n ≠ [] := by
  cases n with
  | zero => exact absurd rfl hn
  | succ m => simp [digitsRev, digitsRevAux]

theorem natStr_ne_nil (n : Nat) : natStr n ≠ [] := by
  by_cases hn : n = 0
  · subst hn; simp [natStr]
  · simp only [natStr, hn, if_false]
    intro hcontra
    rw [List.map_reverse] at hcontra
    exact digitsRev_ne_nil hn
      (List.map_eq_nil_iff.1 (List.reverse_eq_nil_iff.1 hcontra))

theorem natStr_all_digit (n : Nat) : ∀ c ∈ natStr n, ∃ d, d < 10 ∧ c = dChar d := by
  intro c hc
  by_cases hn : n = 0
  · subst hn
    have h0 : natStr 0 = ['0'] := rfl
    rw [h0, List.mem_singleton] at hc
    exact ⟨0, by omega, hc⟩
  · simp only [natStr, hn, if_false, List.mem_map, List.mem_reverse] at hc
    obtain ⟨d, hd, rfl⟩ := hc
    exact ⟨d, digitsRev_lt_ten n d hd, rfl⟩

/-! ## Rounding a rational at a decimal precision (executable)

The embedding of `%.Nf`-style formatting and of numpy's positional float
printing needs round-to-nearest of `q · 10^d` as an integer.  Mathlib's
`round` and the rational field operations are `@[irreducible]` and do not
reduce inside the kernel, so the model computes directly on the numerator and
denominator; `scaledRound_eq_round` ties it back to `round`.  Ties round half
up in this model (the source's behavior at a tie depends on the binary float
significand; no concrete value used below sits on a tie). -/

/-- `round (q * 10^d)` computed on the numerator/denominator: the integer
nearest `q · 10^d`, half up. -/
def scaledRound (d : Nat) (q : ℚ) : ℤ :=
  (2 * q.num * 10 ^ d + q.den) / (2 * (q.den : ℤ))

theorem floor_add_half (a : ℤ) (b : ℕ) (hb : b ≠ 0) :
    ⌊(a : ℚ) / (b : ℚ) + 1 / 2⌋ = (2 * a + b) / (2 * (b : ℤ)) := by
  have hb' : ((b : ℚ)) ≠ 0 := Nat.cast_ne_zero.mpr hb
  have h : (a : ℚ) / (b : ℚ) + 1 / 2 = ((2 * a + b : ℤ) : ℚ) / ((2 * b : ℕ) : ℚ) := by
    field_simp
    ring
  rw [h, Rat.floor_intCast_div_natCast]
  push_cast
  rfl

theorem scaledRound_eq_round (d : Nat) (q : ℚ) :
    scaledRound d q = round (q * 10 ^ d) := by
  have hden : ((q.den : ℚ)) ≠ 0 := Nat.cast_ne_zero.mpr q.den_nz
  have hnum : (q.num : ℚ) = q * q.den := by
    have h := Rat.num_div_den q
    rw [div_eq_iff hden] at h
    exact h
  have hq : q * 10 ^ d = ((q.num * 10 ^ d : ℤ) : ℚ) / ((q.den : ℕ) : ℚ) := by
    rw [eq_div_iff hden]
    push_cast
    rw [hnum]; ring
  rw [round_eq, hq, floor_add_half _ _ q.den_nz, scaledRound]
  ring_nf

example : natStr 120 = ['1', '2', '0'] := by decide
example : parseNatChars ['0', '4', '2'] = 42 := by decide
example : scaledRound 5 (mkRat 6 10000000) = 0 := by decide
example : scaledRound 6 (mkRat 6 10000000) = 1 := by decide
example : scaledRound 6 (mkRat (-3) 2) = -1500000 := by decide

/-! ## String helpers over the character list

Python's string slicing and joining are modelled on the character sequence of
a Lean `String` (all strings handled by the backends are plain printable
text, where the two coincide). -/

/-- Python's `s[:-1]`: drop the final character. -/
def strDropLast (s : String) : String := String.mk s.data.dropLast

/-- Python's `str.endswith` with a single-character suffix. -/
def pyEndsWith (s : String) (c : Char) : Bool := s.data.getLast? == some c

/-- `sep.join(parts)`: parts separated by `sep`, no trailing separator. -/
def sepJoin (sep : String) : List String → String
  | [] => ""
  | [x] => x
  | x :: y :: xs => x ++ sep ++ sepJoin sep (y :: xs)

/-- Writing a buffer to a file: each line followed by a newline
(`fid.write(line); fid.write("\n")` in `BasePost.ProgSave`). -/
def fileText : List String → String
  | [] => ""
  | l :: ls => l ++ "\n" ++ fileText ls

/-- Python `str` of an integer (used by `'OUT[%s]' % str(io_var)` and by the
replay header for the axis count). -/
def intStr (n : ℤ) : String :=
  String.mk ((if n < 0 then ['-'] else []) ++ natStr n.natAbs)

/-- Left-pad a digit list with `'0'` to width `w` (the zero padding of
`%0Nd`-style fractional fields). -/
def padZeros (w : Nat) (cs : List Char) : List Char :=
  List.replicate (w - cs.length) '0' ++ cs

/-- `%.Nf`: fixed-point rendering of a rational with exactly `d` fractional
digits, never scientific notation.  Used for `%.3f`, `%.6f`, `%.2f`, `%.1f`
in the backends. -/
def fmtFixed (d : Nat) (q : ℚ) : String :=
  let n : ℤ := scaledRound d q
  let m : Nat := n.natAbs
  String.mk ((if n < 0 then ['-'] else []) ++
    natStr (m / 10 ^ d) ++ '.' :: padZeros d (natStr (m % 10 ^ d)))

example : fmtFixed 6 (mkRat (-3) 2) = "-1.500000" := by decide
example : fmtFixed 3 1 = "1.000" := by decide
example : fmtFixed 6 (mkRat 6 10000000) = "0.000001" := by decide

/-! ## The replay recorder's float rendering (`FloatRepr.repr_float`)

`PythonWriter.FloatRepr` overrides `repr(float)` with
`numpy.format_float_positional(value, precision=5, trim='0')`: positional
(never scientific) notation, at most 5 fractional digits, trailing zeros
trimmed but at least one digit kept after the point. -/

/-- Trailing-zero stripping before the keep-one-digit fallback. -/
def trimCore (cs : List Char) : List Char := (cs.reverse.dropWhile (· == '0')).reverse

/-- Strip trailing `'0'` characters from a fractional digit list, keeping at
least one digit (`trim='0'`). -/
def trimZeros (cs : List Char) : List Char :=
  if (trimCore cs).isEmpty then ['0'] else trimCore cs

/-- Character sequence produced by
`format_float_positional(q, precision=5, trim='0')`. -/
def fpDigits (q : ℚ) : List Char :=
  let n : ℤ := scaledRound 5 q
  let m : Nat := n.natAbs
  (if n < 0 then ['-'] else []) ++
    natStr (m / 10 ^ 5) ++ '.' :: trimZeros (padZeros 5 (natStr (m % 10 ^ 5)))

/-- The recorder's `repr` of a float argument, as a string. -/
def myReprFloat (q : ℚ) : String := String.mk (fpDigits q)

/-- The rational denoted by a 5-decimal rounding of `q`: the value the host
runtime recovers when it parses `myReprFloat q` back. -/
def round5 (q : ℚ) : ℚ := mkRat (scaledRound 5 q) (10 ^ 5)

example : myReprFloat (mkRat 6 10000000) = "0.0" := by decide
example : myReprFloat 1 = "1.0" := by decide
example : myReprFloat (mkRat 314159 100000) = "3.14159" := by decide
example : myReprFloat (mkRat (-1) 1000) = "-0.001" := by decide
example : round5 (mkRat 6 10000000) = 0 := by decide

/-! ## The host runtime's parse of a float literal

The replay script is evaluated by the Python runtime, which parses the float
literals the recorder rendered.  `parseFloatLit` is the embedding of that
parse on the literal grammar the recorder emits: an optional sign, a
non-empty integer digit run, `'.'`, a non-empty fractional digit run. -/

/-- Value of `ipart.fpart` as a rational. -/
def fracVal (ipart fpart : List Char) : ℚ :=
  mkRat (parseNatChars ipart * 10 ^ fpart.length + parseNatChars fpart)
    (10 ^ fpart.length)

/-- Parse an unsigned fixed-point literal. -/
def parseUnsignedLit (cs : List Char) : Option ℚ :=
  let ipart := cs.takeWhile (fun c => c != '.')
  let rest := cs.dropWhile (fun c => c != '.')
  if rest.head? = some '.' then
    if ipart ≠ [] ∧ rest.tail ≠ [] ∧ ipart.all isDigitCh ∧ rest.tail.all isDigitCh then
      some (fracVal ipart rest.tail)
    else none
  else none

/-- Parse a fixed-point literal with an optional leading minus sign. -/
def parseFloatLit (cs : List Char) : Option ℚ :=
  if cs.head? = some '-' then (parseUnsignedLit cs.tail).map Rat.neg
  else parseUnsignedLit cs

example : parseFloatLit "3.14159".data = some (mkRat 314159 100000) := by decide
example : parseFloatLit "-0.001".data = some (mkRat (-1) 1000) := by decide
example : parseFloatLit "0.0".data = some 0 := by decide

/-! ### Round-trip: the rendered float literal parses back to the rounded value -/

theorem mkRat_eq_div' (n : ℤ) (d : ℕ) : mkRat n d = (n : ℚ) / (d : ℚ) := by
  rw [Rat.mkRat_eq_divInt, Rat.divInt_eq_div]
  norm_cast

theorem foldl_parse_replicate_zero (z a : Nat) :
    List.foldl (fun a c => 10 * a + dVal c) a (List.replicate z '0') = a * 10 ^ z := by
  induction z generalizing a with
  | zero => simp
  | succ k ih =>
      rw [List.replicate_succ, List.foldl_cons, ih]
      show (10 * a + dVal '0') * 10 ^ k = a * 10 ^ (k + 1)
      have h0 : dVal '0' = 0 := rfl
      rw [h0]
      ring

theorem parseNatChars_append_zeros (L : List Char) (z : Nat) :
    parseNatChars (L ++ List.replicate z '0') = parseNatChars L * 10 ^ z := by
  rw [parseNatChars, List.foldl_append]
  exact foldl_parse_replicate_zero z _

theorem parseNatChars_zeros_append (z : Nat) (L : List Char) :
    parseNatChars (List.replicate z '0' ++ L) = parseNatChars L := by
  rw [parseNatChars, List.foldl_append, foldl_parse_replicate_zero]
  simp [parseNatChars]

theorem trim_decomp (cs : List Char) :
    ∃ z, cs = trimCore cs ++ List.replicate z '0' ∧ cs.length = (trimCore cs).length + z := by
  refine ⟨(cs.reverse.takeWhile (· == '0')).length, ?_, ?_⟩
  · have htw : cs.reverse.takeWhile (· == '0')
        = List.replicate (cs.reverse.takeWhile (· == '0')).length '0' :=
      List.eq_replicate_of_mem (fun b hb => by
        have hpb := List.mem_takeWhile_imp (p := (· == '0')) (l := cs.reverse) hb
        exact eq_of_beq hpb)
    conv_lhs => rw [← List.reverse_reverse cs,
      ← List.takeWhile_append_dropWhile (p := (· == '0')) (l := cs.reverse),
      List.reverse_append]
    rw [trimCore]
    congr 1
    conv_lhs => rw [htw]
    rw [List.reverse_replicate]
  · have h2 : (cs.reverse.takeWhile (· == '0')).length
        + (cs.reverse.dropWhile (· == '0')).length = cs.length := by
      rw [← List.length_append, List.takeWhile_append_dropWhile, List.length_reverse]
    have h3 : (trimCore cs).length = (cs.reverse.dropWhile (· == '0')).length :=
      List.length_reverse _
    omega

theorem digitsRevAux_succ (f n : Nat) (hn : n ≠ 0) :
    digitsRevAux (f + 1) n = n % 10 :: digitsRevAux f (n / 10) := by
  simp [digitsRevAux, hn]

theorem digitsRevAux_length_le : ∀ (fuel n k : Nat), n ≤ fuel → n < 10 ^ k →
    (digitsRevAux fuel n).length ≤ k := by
  intro fuel
  induction fuel with
  | zero => intro n k h _; interval_cases n; simp [digitsRevAux]
  | succ f ih =>
      intro n k hle hlt
      by_cases hn : n = 0
      · subst hn; simp [digitsRevAux]
      · cases k with
        | zero => simp only [pow_zero] at hlt; omega
        | succ k' =>
            rw [digitsRevAux_succ f n hn, List.length_cons]
            have hdle : n / 10 ≤ f := by
              have hlt10 : n / 10 < n := Nat.div_lt_self (Nat.pos_of_ne_zero hn) (by omega)
              omega
            have hdlt : n / 10 < 10 ^ k' := by
              rw [Nat.div_lt_iff_lt_mul (by omega)]
              calc n < 10 ^ (k' + 1) := hlt
                _ = 10 ^ k' * 10 := by ring
            exact Nat.add_le_add_right (ih (n / 10) k' hdle hdlt) 1

theorem natStr_length_le {n k : Nat} (hk : 0 < k) (h : n < 10 ^ k) :
    (natStr n).length ≤ k := by
  by_cases hn : n = 0
  · subst hn
    have h1 : (natStr 0).length = 1 := rfl
    omega
  · simp only [natStr, hn, if_false, List.length_map, List.length_reverse]
    exact digitsRevAux_length_le n n k le_rfl h

theorem padZeros_length {w : Nat} {cs : List Char} (h : cs.length ≤ w) :
    (padZeros w cs).length = w := by
  simp only [padZeros, List.length_append, List.length_replicate]
  omega

theorem natStr_not_dot {n : Nat} : ∀ c ∈ natStr n, (c != '.') = true := by
  intro c hc
  obtain ⟨d, hd, rfl⟩ := natStr_all_digit n c hc
  simpa using dChar_ne_dot hd

theorem natStr_isDigit {n : Nat} : ∀ c ∈ natStr n, isDigitCh c = true := by
  intro c hc
  obtain ⟨d, hd, rfl⟩ := natStr_all_digit n c hc
  exact isDigitCh_dChar hd

theorem padZeros_isDigit {w : Nat} {cs : List Char}
    (h : ∀ c ∈ cs, isDigitCh c = true) : ∀ c ∈ padZeros w cs, isDigitCh c = true := by
  intro c hc
  rcases List.mem_append.1 hc with h1 | h1
  · rw [List.eq_of_mem_replicate h1]; rfl
  · exact h c h1

theorem takeWhile_append_cons {p : Char → Bool} (A : List Char) (c : Char) (B : List Char)
    (hA : ∀ a ∈ A, p a = true) (hc : p c = false) :
    (A ++ c :: B).takeWhile p = A ∧ (A ++ c :: B).dropWhile p = c :: B := by
  induction A with
  | nil => simp [List.takeWhile_cons, List.dropWhile_cons, hc]
  | cons a A' ih =>
      have ha : p a = true := hA a (List.mem_cons_self ..)
      have ih' := ih (fun x hx => hA x (List.mem_cons_of_mem _ hx))
      simp [List.takeWhile_cons, List.dropWhile_cons, ha, ih'.1, ih'.2]

set_option maxHeartbeats 1000000 in
/-- Parsing the unsigned rendering of `m / 10^5` (integer part, dot, trimmed
zero-padded fractional part) recovers exactly `m / 10^5`. -/
theorem parseUnsignedLit_render (m : Nat) :
    parseUnsignedLit (natStr (m / 10 ^ 5) ++ '.' ::
        trimZeros (padZeros 5 (natStr (m % 10 ^ 5))))
      = some (mkRat m (10 ^ 5)) := by
  have hfp_lt : m % 10 ^ 5 < 10 ^ 5 := Nat.mod_lt _ (by norm_num)
  set ip := m / 10 ^ 5 with hip
  set fp := m % 10 ^ 5 with hfp
  set P := padZeros 5 (natStr fp) with hP
  have hPlen : P.length = 5 := padZeros_length (natStr_length_le (by norm_num) hfp_lt)
  have hPval : parseNatChars P = fp := by
    rw [hP, padZeros, parseNatChars_zeros_append, parseNatChars_natStr]
  have hPdig : ∀ c ∈ P, isDigitCh c = true := padZeros_isDigit natStr_isDigit
  obtain ⟨z, hdec, hlen⟩ := trim_decomp P
  have hsplit := takeWhile_append_cons (p := fun c => c != '.') (natStr ip) '.'
    (trimZeros P) natStr_not_dot (by decide)
  have hipne : natStr ip ≠ [] := natStr_ne_nil ip
  have hTdig : ∀ c ∈ trimZeros P, isDigitCh c = true := by
    intro c hc
    rw [trimZeros] at hc
    by_cases ht : (trimCore P).isEmpty
    · rw [if_pos ht, List.mem_singleton] at hc
      rw [hc]; rfl
    · rw [if_neg ht] at hc
      exact hPdig c (hdec ▸ List.mem_append_left _ hc)
  have hTne : trimZeros P ≠ [] := by
    rw [trimZeros]
    by_cases ht : (trimCore P).isEmpty
    · rw [if_pos ht]; simp
    · rw [if_neg ht]
      simpa [List.isEmpty_iff] using ht
  have hcond : natStr ip ≠ [] ∧ trimZeros P ≠ [] ∧
      ((natStr ip).all isDigitCh) = true ∧ ((trimZeros P).all isDigitCh) = true :=
    ⟨hipne, hTne, List.all_eq_true.2 natStr_isDigit, List.all_eq_true.2 hTdig⟩
  simp only [parseUnsignedLit, hsplit.1, hsplit.2, List.head?_cons, List.tail_cons, if_true]
  rw [if_pos hcond]
  congr 1
  have hm : 10 ^ 5 * ip + fp = m := Nat.div_add_mod m (10 ^ 5)
  rw [fracVal, parseNatChars_natStr]
  by_cases ht : (trimCore P).isEmpty
  · -- all five fractional digits were zero: the fallback "0" is rendered
    have hT : trimCore P = [] := List.isEmpty_iff.1 ht
    have h0 : parseNatChars (List.replicate z '0') = 0 := by
      have h := parseNatChars_zeros_append z []
      simpa [parseNatChars] using h
    have hfp0 : fp = 0 := by
      have h := hPval
      rw [hdec, hT, List.nil_append, h0] at h
      omega
    have hm' : m = 10 ^ 5 * ip := by omega
    rw [trimZeros, if_pos ht]
    have hvals : parseNatChars ['0'] = 0 := rfl
    rw [hvals]
    rw [mkRat_eq_div', mkRat_eq_div', div_eq_div_iff (by norm_num) (by norm_num)]
    have key : (ip * 10 ^ (['0'] : List Char).length + 0) * 10 ^ 5
        = m * 10 ^ (['0'] : List Char).length := by
      rw [hm']
      show (ip * 10 ^ 1 + 0) * 10 ^ 5 = 10 ^ 5 * ip * 10 ^ 1
      ring
    exact_mod_cast key
  · -- at least one nonzero fractional digit survives trimming
    have hT : trimZeros P = trimCore P := by rw [trimZeros, if_neg ht]
    have hfpz : fp = parseNatChars (trimCore P) * 10 ^ z := by
      have h := parseNatChars_append_zeros (trimCore P) z
      rw [← hdec, hPval] at h
      exact h
    have hLz : (trimCore P).length + z = 5 := by omega
    rw [hT]
    rw [mkRat_eq_div', mkRat_eq_div', div_eq_div_iff (by positivity) (by norm_num)]
    have key : (ip * 10 ^ (trimCore P).length + parseNatChars (trimCore P)) * 10 ^ 5
        = m * 10 ^ (trimCore P).length := by
      have hm2 : m = 10 ^ 5 * ip + parseNatChars (trimCore P) * 10 ^ z := by omega
      have h5n : (10 : ℕ) ^ 5 = 10 ^ (trimCore P).length * 10 ^ z := by
        rw [← pow_add, hLz]
      rw [hm2, h5n]
      ring
    exact_mod_cast key

theorem natAbs_cast_of_neg {n : ℤ} (h : n < 0) : ((n.natAbs : ℤ)) = -n := by omega

/-- The recorder's float rendering, parsed back by the host runtime, yields
exactly the 5-decimal rounding of the original value. -/
theorem parseFloatLit_fpDigits (q : ℚ) :
    parseFloatLit (fpDigits q) = some (round5 q) := by
  rw [fpDigits, round5]
  set n := scaledRound 5 q with hn
  set m := n.natAbs with hm
  by_cases hneg : n < 0
  · rw [if_pos hneg]
    show Option.map Rat.neg (parseUnsignedLit (natStr (m / 10 ^ 5) ++ '.' ::
        trimZeros (padZeros 5 (natStr (m % 10 ^ 5))))) = some (mkRat n (10 ^ 5))
    rw [parseUnsignedLit_render]
    show some (Rat.neg (mkRat (m : ℤ) (10 ^ 5))) = some (mkRat n (10 ^ 5))
    congr 1
    have hmn' : ((m : ℤ)) = -n := natAbs_cast_of_neg hneg
    have hnegdef : Rat.neg (mkRat (m : ℤ) (10 ^ 5)) = -(mkRat (m : ℤ) (10 ^ 5)) := rfl
    rw [hnegdef, hmn', mkRat_eq_div', mkRat_eq_div']
    push_cast
    ring
  · rw [if_neg hneg, List.nil_append]
    have hmn : (m : ℤ) = n := by omega
    have hhead : (natStr (m / 10 ^ 5) ++ '.' ::
        trimZeros (padZeros 5 (natStr (m % 10 ^ 5)))).head? ≠ some '-' := by
      obtain ⟨c, cs', hcons⟩ := List.exists_cons_of_ne_nil (natStr_ne_nil (m / 10 ^ 5))
      rw [hcons, List.cons_append, List.head?_cons]
      obtain ⟨d, hd, rfl⟩ := natStr_all_digit _ c (hcons ▸ List.mem_cons_self ..)
      simpa using dChar_ne_minus hd
    rw [parseFloatLit, if_neg hhead, parseUnsignedLit_render, hmn]

/-- Every character of the rendered float literal is a sign, a dot, or a
decimal digit — in particular the rendering is positional: no `'e'`/`'E'`
exponent marker ever appears. -/
theorem fpDigits_chars (q : ℚ) :
    ∀ c ∈ fpDigits q, c = '-' ∨ c = '.' ∨ isDigitCh c = true := by
  intro c hc
  rw [fpDigits] at hc
  set n := scaledRound 5 q
  set m := n.natAbs
  rcases List.mem_append.1 hc with h1 | h1
  · rcases List.mem_append.1 h1 with h2 | h2
    · left
      by_cases hneg : n < 0
      · rw [if_pos hneg, List.mem_singleton] at h2; exact h2
      · rw [if_neg hneg] at h2; exact absurd h2 (List.not_mem_nil c)
    · right; right; exact natStr_isDigit c h2
  · rcases List.mem_cons.1 h1 with h3 | h3
    · right; left; exact h3
    · right; right
      rw [trimZeros] at h3
      by_cases ht : (trimCore (padZeros 5 (natStr (m % 10 ^ 5)))).isEmpty
      · rw [if_pos ht, List.mem_singleton] at h3
        rw [h3]; rfl
      · rw [if_neg ht] at h3
        obtain ⟨z, hdec, _⟩ := trim_decomp (padZeros 5 (natStr (m % 10 ^ 5)))
        have hmem2 : c ∈ padZeros 5 (natStr (m % 10 ^ 5)) := by
          rw [hdec]; exact List.mem_append_left _ h3
        exact padZeros_isDigit natStr_isDigit c hmem2

theorem fpDigits_no_exponent (q : ℚ) : 'e' ∉ fpDigits q ∧ 'E' ∉ fpDigits q := by
  refine ⟨fun hmem => ?_, fun hmem => ?_⟩ <;>
    rcases fpDigits_chars q _ hmem with h | h | h <;> exact absurd h (by decide)

/-! ## String helpers shared by the backends -/

/-- Python values that can appear as instruction arguments. -/
inductive PyVal where
  | float (q : ℚ)
  | int (n : ℤ)
  | str (s : String)
  | bool (b : Bool)
  | none
  | list (xs : List PyVal)

/-! ## The recorder's `my_repr` (`FloatRepr`, a `reprlib.Repr`)

`my_repr` is `FloatRepr().repr`: a `reprlib.Repr` with the default limits
(`maxstring = 30`, `maxlong = 40`, `maxlevel = 6`), except that
`_repr_iterable` is overridden to render every element of a list
(`maxiter = len(x)`) and floats render through `fpDigits`.  Strings are
modelled as plain printable text (no quotes, backslashes or control
characters), for which Python's `builtins.repr` is a single-quoted copy. -/

/-- The unquoted text of `reprlib.Repr.repr_str` on a plain string with
`maxstring = 30`: exact up to length 28, else the first 12 and last 13
characters around an ellipsis (`s[:i] + '...' + s[len(s)-j:]` with `i = 13`,
`j = 14` applied to the quoted form). -/
def reprStrVal (s : String) : String :=
  if s.length ≤ 28 then s
  else String.mk (s.data.take 12 ++ ('.' :: '.' :: '.' :: s.data.drop (s.data.length - 13)))

/-- `reprlib.Repr.repr_str` on a plain string. -/
def pyReprStr (s : String) : String := "'" ++ reprStrVal s ++ "'"

/-- `reprlib.Repr.repr_int` (`maxlong = 40`): `builtins.repr`, middle-
truncated with an ellipsis when longer than 40 characters. -/
def intRepr (n : ℤ) : String :=
  let s := intStr n
  if s.length ≤ 40 then s
  else String.mk (s.data.take 18 ++ ('.' :: '.' :: '.' :: s.data.drop (s.data.length - 19)))

mutual
/-- `repr1(x, level)`: floats via `repr_float`, strings/ints via the
truncating default handlers, `bool`/`None` via `repr_instance`, and lists
via the overridden `_repr_iterable` (all elements, nesting budget
decremented, contents collapsed to `...` when the budget is exhausted). -/
def reprVal : PyVal → Nat → String
  | .float q, _ => myReprFloat q
  | .int n, _ => intRepr n
  | .str s, _ => pyReprStr s
  | .bool b, _ => if b then "True" else "False"
  | .none, _ => "None"
  | .list xs, level =>
      if level = 0 && !xs.isEmpty then "[...]"
      else "[" ++ sepJoin ", " (reprValList xs (level - 1)) ++ "]"

/-- Element-wise rendering of a list's items at one nesting level. -/
def reprValList : List PyVal → Nat → List String
  | [], _ => []
  | v :: vs, level => reprVal v level :: reprValList vs level
end

/-- The recorder's `my_repr`: `repr1(x, maxlevel)` with `maxlevel = 6`. -/
def myRepr (v : PyVal) : String := reprVal v 6

example : myRepr (.list [.float 1, .float (mkRat 5 2)]) = "[1.0, 2.5]" := by decide
example : myRepr (.str "TCP_On") = "'TCP_On'" := by decide
example : myRepr (.bool true) = "True" := by decide

/-! ## Exact decimal division and Python `str(float)` -/

/-- `q / k` computed on the numerator/denominator (the rational field
operations do not reduce in the kernel).  Models the source's float
multiplication by `0.001`, which is exact for the decimally-representable
values the backends handle. -/
def qDivNat (q : ℚ) (k : Nat) : ℚ := mkRat q.num (q.den * k)

/-- Python `str` of a float whose value has a terminating decimal expansion
(every value reached through `'%s' % (x)` in the sources): the shortest
positional form with at least one fractional digit. -/
def pyStrFloat (q : ℚ) : String :=
  let k := (((List.range 18).find? (fun k => 10 ^ k % q.den == 0)).getD 17).max 1
  fmtFixed k q

example : pyStrFloat (qDivNat (-1) 1000) = "-0.001" := by decide
example : pyStrFloat (qDivNat 1000 1000) = "1.0" := by decide
example : pyStrFloat (qDivNat (-100) 1000) = "-0.1" := by decide

/-! ## Errors raised by backend code -/

/-- Runtime errors of the embedded backend code. -/
inductive PyError where
  /-- `IndexError` from the axis-label list lookup in `joints_2_str`: raised
  exactly when the joint vector exceeds the label capacity — the signal the
  spec names `CapacityError`. -/
  | indexError
  /-- `AttributeError`: the invoked contract method does not exist on the
  backend object. -/
  | attributeError (name : String)
  deriving DecidableEq

deriving instance DecidableEq for Except

/-! ## `BasePost.py` — the generic backend -/

/-- Axis labels of `joints_2_str` (`data = ['A', …, 'L']`). -/
def jointLabels : List String :=
  ["A", "B", "C", "D", "E", "F", "G", "H", "I", "J", "K", "L"]

/-- The accumulation loop of `joints_2_str`: one `'%s%.6f '` field per
joint, consuming one label per axis; an exhausted label list is the
`data[i]` lookup raising `IndexError`. -/
def jointsConcat : List ℚ → List String → Except PyError String
  | [], _ => .ok ""
  | _ :: _, [] => .error .indexError
  | j :: js, l :: ls =>
      (jointsConcat js ls).map (fun rest => l ++ fmtFixed 6 j ++ " " ++ rest)

/-- `joints_2_str(joints)`: labelled 6-decimal fields each followed by a
space, then `str[:-1]` strips the trailing separator. -/
def joints_2_str (joints : List ℚ) : Except PyError String :=
  (jointsConcat joints jointLabels).map strDropLast

example : joints_2_str [1, mkRat (-3) 2] = .ok "A1.000000 B-1.500000" := by decide
example : joints_2_str [] = .ok "" := by decide

/-- Mutable state of `BasePost.RobotPost`. -/
structure BaseState where
  PROG : List String
  LOG : String
  PROG_FILES : List String
  deriving DecidableEq

/-- The state `__init__` establishes. -/
def baseInit : BaseState := { PROG := [], LOG := "", PROG_FILES := [] }

/-- `addline`: append one program line in order. -/
def baseAddline (newline : String) (st : BaseState) : BaseState :=
  { st with PROG := st.PROG ++ [newline] }

/-- `addlog`: append one diagnostic line. -/
def baseAddlog (newline : String) (st : BaseState) : BaseState :=
  { st with LOG := st.LOG ++ newline ++ "\n" }

def baseProgStart (progname : String) (st : BaseState) : BaseState :=
  baseAddline ("PROC " ++ progname ++ "()") st

def baseProgFinish (_progname : String) (st : BaseState) : BaseState :=
  baseAddline "ENDPROC" st

def baseMoveJ (joints : List ℚ) (st : BaseState) : Except PyError BaseState :=
  (joints_2_str joints).map (fun s => baseAddline ("MOVJ " ++ s) st)

/-- The line `BasePost.Pause` emits: an indefinite `PAUSE` for negative
times, otherwise `'WAIT %.3f' % (time_ms * 0.001)`. -/
def basePauseLine (time_ms : ℚ) : String :=
  if time_ms < 0 then "PAUSE" else "WAIT " ++ fmtFixed 3 (qDivNat time_ms 1000)

def basePause (time_ms : ℚ) (st : BaseState) : BaseState :=
  baseAddline (basePauseLine time_ms) st

def baseSetAcceleration (_accel_mmss : ℚ) (st : BaseState) : BaseState :=
  baseAddlog "setAcceleration not defined" st

/-- The implicitly typed `io_var` argument: an explicit variable name or a
numeric output index. -/
inductive IoVar where
  | num (n : ℤ)
  | str (s : String)
  deriving DecidableEq

/-- The implicitly typed `io_value` argument: an explicit token or a
number. -/
inductive IoVal where
  | num (q : ℚ)
  | str (s : String)
  deriving DecidableEq

/-- The rendering both `BasePost.setDO` and `Precise.setDO` share (the two
method bodies are identical): a numeric variable becomes `OUT[i]` via
`str()`, a numeric value strictly above zero becomes `TRUE`, any other
number `FALSE`, and string arguments pass through verbatim into
`'%s=%s'`. -/
def setDOLine (io_var : IoVar) (io_value : IoVal) : String :=
  (match io_var with
   | .num n => "OUT[" ++ intStr n ++ "]"
   | .str s => s) ++ "=" ++
  (match io_value with
   | .num q => if 0 < q then "TRUE" else "FALSE"
   | .str s => s)

def baseSetDO (io_var : IoVar) (io_value : IoVal) (st : BaseState) : BaseState :=
  baseAddline (setDOLine io_var io_value) st

/-- The line `RunCode` emits, shared verbatim by `BasePost` and `Precise`:
for a function call, `code.replace(' ', '_')` is evaluated but its result is
discarded (strings are immutable), then `()` is appended unless the code
already ends in `)`; otherwise the code goes through as a raw line. -/
def runCodeLine (code : String) (is_function_call : Bool) : String :=
  if is_function_call then
    if pyEndsWith code ')' then code else code ++ "()"
  else code

def baseRunCode (code : String) (is_function_call : Bool) (st : BaseState) : BaseState :=
  baseAddline (runCodeLine code is_function_call) st

/-- The line `BasePost.RunMessage` emits: a `%`-comment when `iscomment`,
otherwise a `% Show message:` display line. -/
def baseRunMessageLine (message : String) (iscomment : Bool) : String :=
  if iscomment then "% " ++ message else "% Show message: " ++ message

def baseRunMessage (message : String) (iscomment : Bool) (st : BaseState) : BaseState :=
  baseAddline (baseRunMessageLine message iscomment) st

/-- A file written by a `ProgSave`. -/
structure SavedFile where
  path : String
  content : String
  deriving DecidableEq

/-- `BasePost.ProgSave`.  The save dialog is an external collaborator: its
outcome (cancelled or a chosen path) is the `dialog` parameter, and
`DirExists(folder)` is the `dirExists` parameter.  When the dialog is
consulted and cancelled the method returns without writing anything;
otherwise the buffer is written line-by-line, each line followed by a
newline.  No field of the state is modified. -/
def baseProgSave (dialog : Option String) (folder progname : String)
    (ask_user _show_result : Bool) (dirExists : Bool) (st : BaseState) :
    BaseState × Option SavedFile :=
  let progext := progname ++ "." ++ "txt"
  if ask_user || !dirExists then
    match dialog with
    | Option.none => (st, Option.none)
    | some filesave => (st, some ⟨filesave, fileText st.PROG⟩)
  else
    (st, some ⟨folder ++ "/" ++ progext, fileText st.PROG⟩)

/-! ## `robodk_postprocessors/Precise.py` — the Precise (GPL) backend -/

/-- Mutable state of `Precise.RobotPost` (`PROG` is one string, grown
line-by-line with trailing newlines; the `FRAME`/`TOOL` poses the class also
keeps are untouched by everything modelled here). -/
structure PreciseState where
  nPROGS : Nat
  PROG : String
  LOG : String
  /-- `PROG_FILES` is overwritten by `ProgSave` with the single saved path —
  a plain string in this dialect, not a list. -/
  PROG_FILES : Option String
  deriving DecidableEq

/-- The state `__init__` establishes. -/
def preciseInit : PreciseState :=
  { nPROGS := 0, PROG := "", LOG := "", PROG_FILES := Option.none }

/-- `addline`: `self.PROG = self.PROG + newline + '\n'`. -/
def preciseAddline (newline : String) (st : PreciseState) : PreciseState :=
  { st with PROG := st.PROG ++ newline ++ "\n" }

/-- `addlog`. -/
def preciseAddlog (newline : String) (st : PreciseState) : PreciseState :=
  { st with LOG := st.LOG ++ newline ++ "\n" }

/-- The line `Precise.Pause` emits: always
`'        Move.Delay(%s)' % (time_ms*0.001)` — this dialect has no negative
branch and no indefinite wait. -/
def precisePauseLine (time_ms : ℚ) : String :=
  "        Move.Delay(" ++ pyStrFloat (qDivNat time_ms 1000) ++ ")"

def precisePause (time_ms : ℚ) (st : PreciseState) : PreciseState :=
  preciseAddline (precisePauseLine time_ms) st

def preciseSetDO (io_var : IoVar) (io_value : IoVal) (st : PreciseState) : PreciseState :=
  preciseAddline (setDOLine io_var io_value) st

def preciseRunCode (code : String) (is_function_call : Bool) (st : PreciseState) :
    PreciseState :=
  preciseAddline (runCodeLine code is_function_call) st

/-- The contract method `setAcceleration` does not exist on
`Precise.RobotPost`: the class defines `Acceleration` instead, so Python
attribute lookup raises `AttributeError` when the orchestrator invokes the
contract name. -/
def preciseSetAcceleration (_accel_mmss : ℚ) (_st : PreciseState) :
    Except PyError PreciseState :=
  .error (.attributeError "setAcceleration")

/-- The `Acceleration` method `Precise.py` actually defines: two `%0.2f`
profile lines. -/
def preciseAcceleration (accel_ptg : ℚ) (st : PreciseState) : PreciseState :=
  preciseAddline ("        prof1.Decel = " ++ fmtFixed 2 accel_ptg)
    (preciseAddline ("        prof1.Accel = " ++ fmtFixed 2 accel_ptg) st)

/-- `Precise.ProgSave`: the saved name is fixed to `Main.gpl`; on the
cancelled-dialog path nothing happens; on success the whole `PROG` string is
written as-is and `PROG_FILES` records the path.  `PROG` is never cleared. -/
def preciseProgSave (dialog : Option String) (folder _progname : String)
    (ask_user _show_result : Bool) (dirExists : Bool) (st : PreciseState) :
    PreciseState × Option SavedFile :=
  let progext := "Main" ++ "." ++ "gpl"
  if ask_user || !dirExists then
    match dialog with
    | Option.none => (st, Option.none)
    | some filesave =>
        ({ st with PROG_FILES := some filesave }, some ⟨filesave, st.PROG⟩)
  else
    ({ st with PROG_FILES := some (folder ++ "/" ++ progext) },
      some ⟨folder ++ "/" ++ progext, st.PROG⟩)

/-! ## `robodk_postprocessors/PythonWriter.py` — the replay recorder -/

/-- Mutable state of the recorder (`PythonWriter.RobotPost`). -/
structure PWState where
  PROG : List String
  top_lines : List String
  PROG_FILES : List String
  real_robot_post : String
  ROBOT_NAME : String
  nAxes : Nat
  /-- the configuration mapping captured by `from_config`; re-emitted by the
  header for every key that is not one of the base fields -/
  config : List (String × PyVal)

/-- The state `__init__` / `from_config` establish. -/
def pwInit (realPost robotName : String) (axes : Nat)
    (config : List (String × PyVal)) : PWState :=
  { PROG := [], top_lines := [], PROG_FILES := [], real_robot_post := realPost,
    ROBOT_NAME := robotName, nAxes := axes, config := config }

/-- `addline`: append one recorded statement in order. -/
def pwAddline (newline : String) (st : PWState) : PWState :=
  { st with PROG := st.PROG ++ [newline] }

/-- `_add_python_header`: the script preamble.  `dirPath` is the directory
that `inspect.getfile(...).parent.parent` resolves at run time (an external
input). -/
def pwTopLines (dirPath : String) (st : PWState) : List String :=
  ["import sys\nimport os",
   "sys.path.insert(0, '" ++ dirPath ++ "')",
   "from robodk_postprocessors." ++ st.real_robot_post ++ " import RobotPost\n\n",
   "def run_post():",
   "\trobot = RobotPost('" ++ st.real_robot_post ++ "', '" ++ st.ROBOT_NAME ++ "', "
     ++ String.mk (natStr st.nAxes) ++ ")"]
  ++ (st.config.filter (fun kv =>
        !(["real_robot_post", "robot_post", "robot_name", "robot_axes"].contains kv.fst))).map
      (fun kv => "\trobot." ++ kv.fst ++ " = " ++ myRepr kv.snd)

/-- `PythonWriter.ProgSave`: record the output path, build the header, write
header lines, recorded lines, the final `robot.ProgSave(folder, progname)`
call and the `__main__` guard, then clear `PROG` and `top_lines`. -/
def pwProgSave (dirPath folder progname : String) (_ask_user _show_result : Bool)
    (st : PWState) : PWState × SavedFile :=
  let outfile := folder ++ "/" ++ progname ++ "." ++ "py"
  let st1 : PWState := { st with PROG_FILES := [outfile] }
  let tops := pwTopLines dirPath st1
  let st2 : PWState := { st1 with top_lines := tops }
  let content := fileText (tops ++ st2.PROG
      ++ ["\trobot.ProgSave('" ++ folder ++ "', '" ++ progname ++ "')"])
    ++ "if __name__== \"__main__\":\n" ++ "\trun_post()"
  ({ st2 with PROG := [], top_lines := [] }, ⟨outfile, content⟩)

/-! ## The instruction alphabet and the two executions -/

/-- The instruction calls exercised here, with the argument types the
contract documents (floats as rationals; `MoveJ` with `pose=None`, as in the
spec's example sequence). -/
inductive Instr where
  | progStart (progname : String)
  | progFinish (progname : String)
  | moveJ (joints : List ℚ)
  | pause (time_ms : ℚ)
  | runCode (code : String) (is_function_call : Bool)
  | runMessage (message : String) (iscomment : Bool)
  deriving DecidableEq

/-- The call statement `function_details` records for one intercepted call:
`"\trobot.<name>(<kw>=<my_repr(arg)>, …)"` over the bound arguments (an
argument left to its default is not bound and is not rendered; `MoveJ`'s
`pose` is passed as `None` and rendered by `repr_instance`). -/
def recLine : Instr → String
  | .progStart n => "\trobot.ProgStart(progname=" ++ myRepr (.str n) ++ ")"
  | .progFinish n => "\trobot.ProgFinish(progname=" ++ myRepr (.str n) ++ ")"
  | .moveJ js =>
      "\trobot.MoveJ(pose=" ++ myRepr .none ++ ", joints="
        ++ myRepr (.list (js.map .float)) ++ ")"
  | .pause t => "\trobot.Pause(time_ms=" ++ myRepr (.float t) ++ ")"
  | .runCode c f =>
      "\trobot.RunCode(code=" ++ myRepr (.str c) ++ ", is_function_call="
        ++ myRepr (.bool f) ++ ")"
  | .runMessage msg ic =>
      "\trobot.RunMessage(message=" ++ myRepr (.str msg) ++ ", iscomment="
        ++ myRepr (.bool ic) ++ ")"

/-- Recording a call sequence: each intercepted call appends its rendered
statement to the recorder's buffer (the decorated method bodies are
no-ops). -/
def pwRecord (seq : List Instr) (st : PWState) : PWState :=
  seq.foldl (fun s i => pwAddline (recLine i) s) st

/-- A list of floats renders element-wise: one rendered literal per element,
in order, at any nesting budget. -/
theorem reprValList_map_float (l : List ℚ) (lvl : Nat) :
    reprValList (l.map .float) lvl = l.map myReprFloat := by
  induction l with
  | nil => rfl
  | cons x xs ih => simp only [List.map_cons, reprValList, reprVal, ih]

/-- Lines the generic backend emits in response to one instruction. -/
def baseExecLines : Instr → Except PyError (List String)
  | .progStart n => .ok ["PROC " ++ n ++ "()"]
  | .progFinish _ => .ok ["ENDPROC"]
  | .moveJ js => (joints_2_str js).map (fun s => ["MOVJ " ++ s])
  | .pause t => .ok [basePauseLine t]
  | .runCode c f => .ok [runCodeLine c f]
  | .runMessage msg ic => .ok [baseRunMessageLine msg ic]

/-- Program text the generic backend's `ProgSave` writes after receiving the
call sequence directly (each buffered line followed by a newline). -/
def directOutput (seq : List Instr) : Except PyError String :=
  (seq.mapM baseExecLines).map (fun lss => fileText lss.flatten)

/-- The value the host runtime recovers from a recorded float literal:
`float("<fpDigits q>")` (total; the parse never fails on rendered text, see
`parseFloatLit_fpDigits`). -/
def reparseFloat (q : ℚ) : ℚ := (parseFloatLit (fpDigits q)).getD 0

/-- The call the generated script replays for one recorded statement: the
same instruction with each argument replaced by the host runtime's parse of
its rendered literal. -/
def parseBackInstr : Instr → Instr
  | .progStart n => .progStart (reprStrVal n)
  | .progFinish n => .progFinish (reprStrVal n)
  | .moveJ js => .moveJ (js.map reparseFloat)
  | .pause t => .pause (reparseFloat t)
  | .runCode c f => .runCode (reprStrVal c) f
  | .runMessage msg ic => .runMessage (reprStrVal msg) ic

/-- Program text produced by generating the replay script from the recorded
call sequence and executing it against the generic backend: the script
replays each call with the reparsed arguments and ends with
`robot.ProgSave(folder, progname)`. -/
def replayOutput (seq : List Instr) : Except PyError String :=
  directOutput (seq.map parseBackInstr)

theorem reparseFloat_eq_round5 (q : ℚ) : reparseFloat q = round5 q := by
  rw [reparseFloat, parseFloatLit_fpDigits]
  rfl

/-- Recorded-argument stability: every float argument is exactly its own
5-decimal rounding, and every string argument is short enough to escape
`reprlib`'s `maxstring` truncation. -/
def stableInstr : Instr → Bool
  | .progStart n => decide (n.length ≤ 28)
  | .progFinish n => decide (n.length ≤ 28)
  | .moveJ js => js.all (fun q => decide (round5 q = q))
  | .pause t => decide (round5 t = t)
  | .runCode c _ => decide (c.length ≤ 28)
  | .runMessage msg _ => decide (msg.length ≤ 28)

theorem reprStrVal_short {s : String} (h : s.length ≤ 28) : reprStrVal s = s := by
  rw [reprStrVal, if_pos h]

theorem parseBackInstr_stable {i : Instr} (h : stableInstr i = true) :
    parseBackInstr i = i := by
  cases i with
  | progStart n =>
      rw [parseBackInstr, reprStrVal_short (of_decide_eq_true h)]
  | progFinish n =>
      rw [parseBackInstr, reprStrVal_short (of_decide_eq_true h)]
  | moveJ js =>
      rw [parseBackInstr]
      congr 1
      have hall := List.all_eq_true.1 h
      calc js.map reparseFloat = js.map id := by
            apply List.map_congr_left
            intro a ha
            rw [reparseFloat_eq_round5]
            exact of_decide_eq_true (hall a ha)
        _ = js := List.map_id js
  | pause t =>
      rw [parseBackInstr, reparseFloat_eq_round5, of_decide_eq_true h]
  | runCode c f =>
      rw [parseBackInstr, reprStrVal_short (of_decide_eq_true h)]
  | runMessage msg ic =>
      rw [parseBackInstr, reprStrVal_short (of_decide_eq_true h)]

/-! ## Helper lemmas for the claims -/

theorem pwRecord_PROG (seq : List Instr) (st : PWState) :
    (pwRecord seq st).PROG = st.PROG ++ seq.map recLine := by
  induction seq generalizing st with
  | nil => simp [pwRecord]
  | cons i rest ih =>
      rw [pwRecord, List.foldl_cons]
      have h := ih (pwAddline (recLine i) st)
      rw [pwRecord] at h
      rw [h, pwAddline, List.map_cons]
      simp

/-- The trailing-separator concatenation built by the `joints_2_str` loop. -/
def trailJoin (parts : List String) : String :=
  parts.foldr (fun p acc => p ++ " " ++ acc) ""

theorem jointsConcat_ok : ∀ (js : List ℚ) (ls : List String), js.length ≤ ls.length →
    jointsConcat js ls
      = .ok (trailJoin ((ls.zip js).map (fun p => p.1 ++ fmtFixed 6 p.2))) := by
  intro js
  induction js with
  | nil => intro ls _; cases ls <;> rfl
  | cons j js' ih =>
      intro ls hlen
      cases ls with
      | nil => simp at hlen
      | cons l ls' =>
          rw [jointsConcat, ih ls' (by simpa using hlen)]
          rfl

theorem trailJoin_data_ne_nil (p : String) (ps : List String) :
    (trailJoin (p :: ps)).data ≠ [] := by
  show ((p ++ " ") ++ trailJoin ps).data ≠ []
  rw [String.data_append, String.data_append]
  intro hcontra
  have := congrArg List.length hcontra
  simp [String.data] at this

theorem strDropLast_append (a b : String) (hb : b.data ≠ []) :
    strDropLast (a ++ b) = a ++ strDropLast b := by
  cases a with
  | mk da =>
      cases b with
      | mk db =>
          show String.mk ((String.mk (da ++ db)).data.dropLast)
            = String.mk (da ++ (String.mk db.dropLast).data)
          have hdb : db ≠ [] := hb
          have h := List.dropLast_append_of_ne_nil (l := db) da hdb
          show String.mk ((da ++ db).dropLast) = String.mk (da ++ db.dropLast)
          rw [h]

theorem strDropLast_trailJoin : ∀ parts : List String,
    strDropLast (trailJoin parts) = sepJoin " " parts := by
  intro parts
  induction parts with
  | nil => rfl
  | cons x xs ih =>
      cases xs with
      | nil =>
          show strDropLast (x ++ " " ++ "") = x
          cases x with
          | mk dx =>
              show String.mk ((String.mk dx ++ " " ++ "").data.dropLast) = String.mk dx
              rw [String.data_append, String.data_append]
              show String.mk ((dx ++ [' '] ++ []).dropLast) = String.mk dx
              rw [List.append_nil, List.dropLast_concat]
      | cons y ys =>
          show strDropLast ((x ++ " ") ++ trailJoin (y :: ys)) = sepJoin " " (x :: y :: ys)
          rw [strDropLast_append _ _ (trailJoin_data_ne_nil y ys)]
          rw [show sepJoin " " (x :: y :: ys) = x ++ " " ++ sepJoin " " (y :: ys) from rfl]
          rw [← ih]

/-! ## The claims -/

/-- C1 (counterexample).  The replay invariant fails as universally stated:
for `MoveJ(None, [6e-7])` the direct invocation renders the joint with six
decimals (`%.6f` rounds `6e-7` up to `0.000001`), while the recorder's
literal keeps only five decimals (`format_float_positional(..., precision=5)`
renders `0.0`), so the replayed program prints `0.000000` — the two saved
programs differ byte-wise. -/
theorem c1_counterexample :
    replayOutput [Instr.moveJ [mkRat 6 10000000]]
        ≠ directOutput [Instr.moveJ [mkRat 6 10000000]]
    ∧ directOutput [Instr.moveJ [mkRat 6 10000000]] = .ok "MOVJ A0.000001\n"
    ∧ replayOutput [Instr.moveJ [mkRat 6 10000000]] = .ok "MOVJ A0.000000\n"
    ∧ recLine (.moveJ [mkRat 6 10000000])
        = "\trobot.MoveJ(pose=None, joints=[0.0])" := by
  refine ⟨by decide, by decide, by decide, by decide⟩

/-- C1 (amended).  Recording through the replay backend and executing the
generated script against the generic backend is byte-identical to invoking
that backend directly, **provided** every recorded float argument is exactly
its own 5-decimal rounding (the recorder's configured precision) and every
string argument is short enough to escape `reprlib`'s 30-character
truncation. -/
theorem c1_replay_faithful (seq : List Instr)
    (h : ∀ i ∈ seq, stableInstr i = true) :
    replayOutput seq = directOutput seq := by
  rw [replayOutput]
  congr 1
  calc seq.map parseBackInstr = seq.map id :=
        List.map_congr_left (fun i hi => parseBackInstr_stable (h i hi))
    _ = seq := List.map_id seq

/-- C1 (witness): the spec's own example sequence
`[ProgStart("P"), MoveJ(None, [1..6]), ProgFinish("P")]` is stable, and its
replayed output coincides with the direct output. -/
theorem c1_witness :
    (∀ i ∈ ([Instr.progStart "P", Instr.moveJ [1, 2, 3, 4, 5, 6],
        Instr.progFinish "P"] : List Instr), stableInstr i = true)
    ∧ replayOutput [Instr.progStart "P", Instr.moveJ [1, 2, 3, 4, 5, 6],
        Instr.progFinish "P"]
      = directOutput [Instr.progStart "P", Instr.moveJ [1, 2, 3, 4, 5, 6],
        Instr.progFinish "P"] :=
  ⟨by decide, c1_replay_faithful _ (by decide)⟩

/-- C2 (counterexample).  Round-trip fidelity fails as universally stated:
the recorder renders the float `6e-7` as `"0.0"`, which parses back to `0`,
not to the original value. -/
theorem c2_counterexample :
    parseFloatLit (myReprFloat (mkRat 6 10000000)).data = some 0
    ∧ (mkRat 6 10000000 : ℚ) ≠ 0
    ∧ myReprFloat (mkRat 6 10000000) = "0.0" := by
  refine ⟨by decide, by decide, by decide⟩

/-- C2 (amended).  The recorder's literal rendering round-trips **up to the
configured 5-decimal precision**: every float literal parses back to exactly
the 5-decimal rounding of the original (hence to an equal value whenever the
original is representable in 5 decimals), the rendering is fixed-point with
no exponent marker, and lists render one literal per element with no
truncation regardless of length (at a positive nesting budget the rendering
is the recursive bracketed join of all elements). -/
theorem c2_roundtrip_upto_precision :
    (∀ q : ℚ, parseFloatLit (myReprFloat q).data = some (round5 q)
      ∧ 'e' ∉ (myReprFloat q).data ∧ 'E' ∉ (myReprFloat q).data)
    ∧ (∀ (xs : List PyVal) (lvl : Nat), (reprValList xs lvl).length = xs.length)
    ∧ (∀ (xs : List PyVal) (lvl : Nat), 0 < lvl →
        reprVal (.list xs) lvl
          = "[" ++ sepJoin ", " (reprValList xs (lvl - 1)) ++ "]") := by
  refine ⟨fun q => ⟨parseFloatLit_fpDigits q, (fpDigits_no_exponent q).1,
    (fpDigits_no_exponent q).2⟩, ?_, ?_⟩
  · intro xs lvl
    induction xs with
    | nil => rfl
    | cons v vs ih => simp only [reprValList, List.length_cons, ih]
  · intro xs lvl hlvl
    rw [reprVal]
    have hc : (decide (lvl = 0) && !xs.isEmpty) = false := by
      have : decide (lvl = 0) = false := decide_eq_false (by omega)
      rw [this, Bool.false_and]
    rw [hc]
    rfl

/-- C2 (witness): the amended round-trip at `2.5` and the untruncated
two-element list rendering at the recorder's top-level budget. -/
theorem c2_witness :
    parseFloatLit (myReprFloat (mkRat 5 2)).data = some (round5 (mkRat 5 2))
    ∧ round5 (mkRat 5 2) = mkRat 5 2
    ∧ reprVal (.list [.float 1, .float (mkRat 5 2)]) 6 = "[1.0, 2.5]" := by
  refine ⟨(c2_roundtrip_upto_precision.1 (mkRat 5 2)).1, by decide, ?_⟩
  rw [c2_roundtrip_upto_precision.2.2 [.float 1, .float (mkRat 5 2)] 6 (by decide)]
  decide

/-- C3 (code bug).  `Precise.py` defines `Acceleration`, not the contract
method `setAcceleration`: invoking the contract method on the Precise
backend raises `AttributeError` instead of degrading to a diagnostic log
entry.  For contrast, the generic backend logs, and Precise's actual
`Acceleration` method emits two profile lines. -/
theorem c3_setAcceleration_raises :
    preciseSetAcceleration 200 preciseInit
        = .error (.attributeError "setAcceleration")
    ∧ baseSetAcceleration 200 baseInit
        = { baseInit with LOG := "setAcceleration not defined\n" }
    ∧ preciseAcceleration 200 preciseInit
        = { preciseInit with
            PROG := "        prof1.Accel = 200.00\n        prof1.Decel = 200.00\n" } := by
  refine ⟨rfl, by decide, by decide⟩

/-- C4 (counterexample).  A successful `ProgSave` on the generic backend
does **not** clear the buffer: after `ProgStart("P")` and a successful save,
`PROG` still holds the program line, and a second `ProgStart`/`ProgSave`
cycle writes a file that contains the first program's line as well — the
files overlap. -/
theorem c4_counterexample :
    (baseProgSave Option.none "out" "P" false false true
        (baseProgStart "P" baseInit)).2
      = some ⟨"out/P.txt", "PROC P()\n"⟩
    ∧ (baseProgSave Option.none "out" "P" false false true
        (baseProgStart "P" baseInit)).1.PROG = ["PROC P()"]
    ∧ (["PROC P()"] : List String) ≠ []
    ∧ (baseProgSave Option.none "out" "P2" false false true
        (baseProgStart "P2" (baseProgSave Option.none "out" "P" false false true
          (baseProgStart "P" baseInit)).1)).2
      = some ⟨"out/P2.txt", "PROC P()\nPROC P2()\n"⟩ := by
  refine ⟨by decide, by decide, by decide, by decide⟩

/-- C4 (amended).  Only the replay backend clears its buffer on `ProgSave`
(it resets both `PROG` and `top_lines`); the generic and Precise backends
return from `ProgSave` with `PROG` untouched (the generic backend changes no
state at all), so sequential cycles on those backends accumulate. -/
theorem c4_only_replay_clears :
    (∀ (dirPath folder progname : String) (au sr : Bool) (st : PWState),
      (pwProgSave dirPath folder progname au sr st).1.PROG = []
      ∧ (pwProgSave dirPath folder progname au sr st).1.top_lines = [])
    ∧ (∀ (dialog : Option String) (folder progname : String) (au sr de : Bool)
        (st : BaseState), (baseProgSave dialog folder progname au sr de st).1 = st)
    ∧ (∀ (dialog : Option String) (folder progname : String) (au sr de : Bool)
        (st : PreciseState),
        (preciseProgSave dialog folder progname au sr de st).1.PROG = st.PROG) := by
  refine ⟨fun _ _ _ _ _ _ => ⟨rfl, rfl⟩, ?_, ?_⟩
  · intro dialog folder progname au sr de st
    rw [baseProgSave.eq_def]
    split
    · cases dialog <;> rfl
    · rfl
  · intro dialog folder progname au sr de st
    rw [preciseProgSave.eq_def]
    split
    · cases dialog <;> rfl
    · rfl

/-- C5 (counterexample).  On the Precise backend a negative pause does not
produce an indefinite operator-resume wait: `Pause(-1)` emits the timed line
`Move.Delay(-0.001)`, and `Pause(-100)` emits a different line — the emitted
text depends on the negative duration, which no single indefinite-wait line
could. -/
theorem c5_counterexample :
    precisePauseLine (-1) = "        Move.Delay(-0.001)"
    ∧ precisePauseLine (-1) ≠ precisePauseLine (-100)
    ∧ (precisePause (-1) preciseInit).PROG = "        Move.Delay(-0.001)\n" := by
  refine ⟨by decide, by decide, by decide⟩

/-- C5 (amended).  The generic backend distinguishes the sign as claimed:
`Pause(ms)` emits the indefinite `PAUSE` line for `ms < 0` and a
`WAIT %.3f`-of-`ms/1000` line for `ms ≥ 0`; the Precise backend instead
always emits a timed `Move.Delay` line whose rendered value is `ms/1000`,
for either sign. -/
theorem c5_pause_amended :
    (∀ (t : ℚ) (st : BaseState), t < 0 → basePause t st = baseAddline "PAUSE" st)
    ∧ (∀ (t : ℚ) (st : BaseState), 0 ≤ t →
        basePause t st
          = baseAddline ("WAIT " ++ fmtFixed 3 (qDivNat t 1000)) st)
    ∧ (∀ (t : ℚ) (st : PreciseState),
        precisePause t st
          = preciseAddline
              ("        Move.Delay(" ++ pyStrFloat (qDivNat t 1000) ++ ")") st) := by
  refine ⟨?_, ?_, fun t st => rfl⟩
  · intro t st ht
    rw [basePause, basePauseLine, if_pos ht]
  · intro t st ht
    rw [basePause, basePauseLine, if_neg (not_lt.2 ht)]

/-- C5 (witness): `Pause(-1)` hits the indefinite branch and `Pause(1000)`
the timed branch (whose rendered value is `1.000`) on the generic backend;
`Pause(-100)` emits the Precise timed-delay line `Move.Delay(-0.1)`. -/
theorem c5_witness :
    ((-1 : ℚ) < 0 ∧ basePause (-1) baseInit = baseAddline "PAUSE" baseInit)
    ∧ ((0 : ℚ) ≤ 1000
        ∧ basePause 1000 baseInit
            = baseAddline ("WAIT " ++ fmtFixed 3 (qDivNat 1000 1000)) baseInit
        ∧ fmtFixed 3 (qDivNat 1000 1000) = "1.000")
    ∧ (precisePause (-100) preciseInit
          = preciseAddline
              ("        Move.Delay(" ++ pyStrFloat (qDivNat (-100) 1000) ++ ")")
              preciseInit
        ∧ pyStrFloat (qDivNat (-100) 1000) = "-0.1") :=
  ⟨⟨by decide, c5_pause_amended.1 (-1) baseInit (by decide)⟩,
   ⟨by decide, c5_pause_amended.2.1 1000 baseInit (by decide), by decide⟩,
   ⟨c5_pause_amended.2.2 (-100) preciseInit, by decide⟩⟩

/-- C6 (code bug).  `RunCode("my func", is_function_call=True)` emits
`"my func()"` on both backends: the source evaluates
`code.replace(' ', '_')` but discards the result (strings are immutable and
the call is not assigned), so the space survives into the emitted call token
— contradicting the claimed normalization, while the `()` suffix is
appended as claimed.  The raw branch passes code through verbatim. -/
theorem c6_space_survives :
    runCodeLine "my func" true = "my func()"
    ∧ ' ' ∈ "my func()".data
    ∧ (baseRunCode "my func" true baseInit).PROG = ["my func()"]
    ∧ (preciseRunCode "my func" true preciseInit).PROG = "my func()\n"
    ∧ runCodeLine "TCP_On" true = "TCP_On()"
    ∧ runCodeLine "already()" true = "already()"
    ∧ runCodeLine "raw line with spaces" false = "raw line with spaces" := by
  refine ⟨by decide, by decide, by decide, by decide, by decide, by decide, by decide⟩

/-- C7 (confirmed).  `setDO` on both concrete backends renders a numeric
reference through the `OUT[i]` output-index convention and a numeric value
through the dialect's `TRUE`/`FALSE` convention, while string reference and
value arguments pass through verbatim into `'%s=%s'`; in particular
`setDO(3, 1)` emits `OUT[3]=TRUE` and `setDO("MYVAR", "ON")` emits
`MYVAR=ON`. -/
theorem c7_setDO_rendering :
    (∀ (n : ℤ) (q : ℚ) (st : BaseState),
      baseSetDO (.num n) (.num q) st
        = baseAddline ("OUT[" ++ intStr n ++ "]" ++ "="
            ++ (if 0 < q then "TRUE" else "FALSE")) st)
    ∧ (∀ (sv tv : String) (st : BaseState),
        baseSetDO (.str sv) (.str tv) st = baseAddline (sv ++ "=" ++ tv) st)
    ∧ (∀ (n : ℤ) (q : ℚ) (st : PreciseState),
        preciseSetDO (.num n) (.num q) st
          = preciseAddline ("OUT[" ++ intStr n ++ "]" ++ "="
              ++ (if 0 < q then "TRUE" else "FALSE")) st)
    ∧ (∀ (sv tv : String) (st : PreciseState),
        preciseSetDO (.str sv) (.str tv) st = preciseAddline (sv ++ "=" ++ tv) st)
    ∧ setDOLine (.num 3) (.num 1) = "OUT[3]=TRUE"
    ∧ setDOLine (.str "MYVAR") (.str "ON") = "MYVAR=ON" := by
  refine ⟨fun n q st => rfl, fun sv tv st => rfl, fun n q st => rfl,
    fun sv tv st => rfl, by decide, by decide⟩

/-- C8 (confirmed).  For a joint vector within the 12-label alphabet,
`joints_2_str` succeeds with exactly one labelled field per axis, in axis
order — label from the fixed `A`–`L` sequence, value in 6-decimal
fixed-point — the fields joined by single spaces with no trailing
separator. -/
theorem c8_encodeJoints_fields (joints : List ℚ) (h : joints.length ≤ 12) :
    joints_2_str joints
      = .ok (sepJoin " "
          ((jointLabels.zip joints).map (fun p => p.1 ++ fmtFixed 6 p.2)))
    ∧ (jointLabels.zip joints).length = joints.length := by
  constructor
  · rw [joints_2_str,
      jointsConcat_ok joints jointLabels (by simpa [jointLabels] using h)]
    show Except.ok (strDropLast _) = _
    rw [strDropLast_trailJoin]
  · rw [List.length_zip]
    have hlab : jointLabels.length = 12 := rfl
    omega

/-- C8 (witness): a two-axis vector encodes as `A1.000000 B-1.500000`. -/
theorem c8_witness :
    ([1, mkRat (-3) 2] : List ℚ).length ≤ 12
    ∧ joints_2_str [1, mkRat (-3) 2] = .ok "A1.000000 B-1.500000" :=
  ⟨by decide, by
    have h := (c8_encodeJoints_fields [1, mkRat (-3) 2] (by decide)).1
    rw [h]
    decide⟩

/-- C9 (confirmed).  A joint vector longer than the 12-letter label alphabet
makes `joints_2_str` signal the capacity error: the `data[i]` lookup runs
off the label list (Python's `IndexError` — the condition the spec names
`CapacityError`), so no encoded string is produced. -/
theorem c9_overflow_capacity (joints : List ℚ) (h : 12 < joints.length) :
    joints_2_str joints = .error .indexError := by
  rw [joints_2_str]
  have hgen : ∀ (js : List ℚ) (ls : List String), ls.length < js.length →
      jointsConcat js ls = .error .indexError := by
    intro js
    induction js with
    | nil => intro ls h'; simp at h'
    | cons j js' ih =>
        intro ls h'
        cases ls with
        | nil => rfl
        | cons l ls' =>
            rw [jointsConcat, ih ls' (by simpa using h')]
            rfl
  rw [hgen joints jointLabels (by simpa [jointLabels] using h)]
  rfl

/-- C9 (witness): a 13-axis vector raises the capacity signal. -/
theorem c9_witness :
    12 < (List.replicate 13 (0 : ℚ)).length
    ∧ joints_2_str (List.replicate 13 0) = .error .indexError :=
  ⟨by decide, c9_overflow_capacity _ (by decide)⟩

/-- C10 (confirmed).  When `ProgSave` consults the external save dialog
(because `ask_user` is set or the folder does not exist) and the dialog
yields no file, both the generic and the Precise backend return immediately:
no file is written and the whole state — program buffer, diagnostic log and
saved-file record — is exactly as before. -/
theorem c10_cancelled_save_unchanged (dialog : Option String)
    (folder progname : String) (au sr de : Bool)
    (bst : BaseState) (pst : PreciseState)
    (hcond : au = true ∨ de = false) (hdialog : dialog = Option.none) :
    baseProgSave dialog folder progname au sr de bst = (bst, Option.none)
    ∧ preciseProgSave dialog folder progname au sr de pst = (pst, Option.none) := by
  subst hdialog
  have hif : (au || !de) = true := by
    rcases hcond with h | h <;> simp [h]
  constructor
  · rw [baseProgSave.eq_def, hif]
    rfl
  · rw [preciseProgSave.eq_def, hif]
    rfl

/-- C10 (witness): with `ask_user = true` and a cancelled dialog, a non-empty
generic-backend state and the fresh Precise state both come back unchanged
with no file written. -/
theorem c10_witness :
    (true = true ∨ true = false)
    ∧ baseProgSave Option.none "out" "P" true false true
        (baseProgStart "P" baseInit) = (baseProgStart "P" baseInit, Option.none)
    ∧ preciseProgSave Option.none "out" "P" true false true preciseInit
        = (preciseInit, Option.none) :=
  ⟨Or.inl rfl,
   (c10_cancelled_save_unchanged Option.none "out" "P" true false true
      (baseProgStart "P" baseInit) preciseInit (Or.inl rfl) rfl).1,
   (c10_cancelled_save_unchanged Option.none "out" "P" true false true
      (baseProgStart "P" baseInit) preciseInit (Or.inl rfl) rfl).2⟩
